import Mathlib

/-!
Verification development for the fork-detection core of the tendermint-rs
light client, together with the `Time → SystemTime` conversion from the
types module.

The fork detector (`ProdForkDetector::detect_forks` in
`light-client/src/fork_detector.rs`) is embedded shallowly: blocks, stores
and witness clients become Lean structures, the detection loop becomes a
recursive function threading the accumulated fork list, and Rust's `?`
operator on `get_or_fetch_block` becomes explicit propagation of the
`Except.error` case.

Collaborators of the detector that live outside the provided sources
(light blocks, the memory store, the witness client operations, the error
taxonomy) are modelled from the specification, as documented on each
definition.  The detector itself is translated from the source.
-/

namespace TendermintRs

/-- Header hash digests.  The detector only ever compares digests for
equality and obtains them through an injected hasher capability, so the
digest type is abstracted to `Nat`. -/
abbrev Hash := Nat

/-- Opaque identity of the peer that supplied a block. -/
abbrev PeerId := Nat

/-- Block heights. -/
abbrev Height := Nat

/-- Modelled from the spec: the canonical consensus block header.  The fork
detector inspects a header only through the injected hasher and through its
height, so all remaining canonical fields are abstracted into `tag` (which
lets distinct headers exist at the same height). -/
structure Header where
  height : Height
  tag : Nat
deriving DecidableEq

/-- Modelled from the spec: a header together with its commit.  The detector
never inspects the commit, so only the header is carried. -/
structure SignedHeader where
  header : Header
deriving DecidableEq

/-- Modelled from the spec: `LightBlock = (SignedHeader, ValidatorSet,
NextValidatorSet, provider)`.  The validator sets are never inspected by the
detector and are omitted. -/
structure LightBlock where
  signedHeader : SignedHeader
  provider : PeerId
deriving DecidableEq

/-- `LightBlock::height()`: the height recorded in the signed header. -/
def LightBlock.height (b : LightBlock) : Height :=
  b.signedHeader.header.height

/-- Modelled from the spec: verification status of a stored light block. -/
inductive Status where
  | unverified
  | verified
  | trusted
  | failed
deriving DecidableEq

/-- Modelled from the spec: the error-kind surface the detector consumes
from the verifier (`Io`, `Timeout`, `Rpc`, `InvalidCommit`,
`InsufficientVotingPower`, `TrustedStateOutsideTrustingPeriod`,
`TargetLowerThanTrustedState`, `InvalidValidatorSet`). -/
inductive ErrorKind where
  | ioError
  | timeout
  | rpc
  | invalidCommit
  | insufficientVotingPower
  | trustedStateOutsideTrustingPeriod
  | targetLowerThanTrustedState
  | invalidValidatorSet
deriving DecidableEq

/-- Modelled from the spec: `ErrorExt::has_expired`, true exactly for the
trusting-period error. -/
def ErrorKind.hasExpired : ErrorKind → Bool
  | .trustedStateOutsideTrustingPeriod => true
  | _ => false

/-- Modelled from the spec: `ErrorExt::is_timeout`, true exactly for the
timeout kind. -/
def ErrorKind.isTimeout : ErrorKind → Bool
  | .timeout => true
  | _ => false

/-- An error as seen by the detector: it is only ever interrogated through
`e.kind()`. -/
structure Error where
  kind : ErrorKind
deriving DecidableEq

/-- Modelled from the spec: the ephemeral in-memory light-block store, a
mapping `height → (LightBlock, Status)`; inserting a second block at an
existing height replaces the entry. -/
structure MemoryStore where
  entries : List (Height × LightBlock × Status)
deriving DecidableEq

/-- `MemoryStore::new()`: the empty store. -/
def MemoryStore.new : MemoryStore := ⟨[]⟩

/-- Modelled from the spec: `insert(block, status)` keys the entry by the
block's height and replaces any previous entry at that height. -/
def MemoryStore.insert (s : MemoryStore) (b : LightBlock) (st : Status) :
    MemoryStore :=
  ⟨(b.height, b, st) :: s.entries.filter (fun e => e.1 != b.height)⟩

/-- Modelled from the spec: lookup of the entry stored at a height. -/
def MemoryStore.getAt (s : MemoryStore) (hh : Height) :
    Option (LightBlock × Status) :=
  (s.entries.find? (fun e => e.1 == hh)).map (fun e => e.2)

/-- The verification state threaded through one witness check; the detector
only uses its light store. -/
structure State where
  lightStore : MemoryStore
deriving DecidableEq

/-- `State::new(store)`. -/
def State.new (store : MemoryStore) : State := ⟨store⟩

/-- Modelled from the spec: one witness instance, described by the
behaviour of its light client.  `fetchBlock` is the peer's response used by
`get_or_fetch_block`; `verifyToTarget` is the skipping verifier run against
this witness, an arbitrary function of the target height and the store it
is handed (the detector treats its result opaquely). -/
structure Witness where
  fetchBlock : Height → Except Error LightBlock
  verifyToTarget : Height → State → Except Error LightBlock

/-- Modelled from the spec: `get_or_fetch_block(height, store)` returns the
block at `height` from the store if present, otherwise fetches it from the
peer and inserts it with status `Unverified`.  The updated state is
returned explicitly (in Rust the store is mutated through `&mut`). -/
def Witness.getOrFetchBlock (w : Witness) (hh : Height) (s : State) :
    Except Error ((LightBlock × Status) × State) :=
  match s.lightStore.getAt hh with
  | some (b, st) => .ok ((b, st), s)
  | none =>
    match w.fetchBlock hh with
    | .ok b => .ok ((b, Status.unverified), State.new (s.lightStore.insert b .unverified))
    | .error e => .error e

/-- Types of fork, from `fork_detector.rs`. -/
inductive Fork where
  | forked (primary : LightBlock) (witness : LightBlock)
  | faulty (block : LightBlock) (kind : ErrorKind)
  | timeout (peer : PeerId) (kind : ErrorKind)
deriving DecidableEq

/-- Result of fork detection, from `fork_detector.rs`. -/
inductive ForkDetection where
  | detected (forks : List Fork)
  | notDetected
deriving DecidableEq

/-- The per-witness loop body of `ProdForkDetector::detect_forks`,
translated with the accumulated `forks` vector made an explicit argument.
For each witness: create a fresh state over an empty memory store, call
`get_or_fetch_block` (whose error propagates via `?`, i.e. aborts the whole
call), compare header hashes, skip on match, otherwise seed the store with
the trusted block (`Verified`) and the witness block (`Unverified`), run
`verify_to_target` and classify its result. -/
def detect_forks_loop (hasher : Header → Hash) (primaryHash : Hash)
    (verifiedBlock trustedBlock : LightBlock) :
    List Witness → List Fork → Except Error (List Fork)
  | [], forks => .ok forks
  | witness :: rest, forks =>
    let state := State.new MemoryStore.new
    match witness.getOrFetchBlock verifiedBlock.height state with
    | .error e => .error e
    | .ok ((witnessBlock, _), state1) =>
      let witnessHash := hasher witnessBlock.signedHeader.header
      if primaryHash = witnessHash then
        detect_forks_loop hasher primaryHash verifiedBlock trustedBlock rest forks
      else
        let state2 := State.new
          ((state1.lightStore.insert trustedBlock .verified).insert witnessBlock .unverified)
        match witness.verifyToTarget verifiedBlock.height state2 with
        | .ok _ =>
          detect_forks_loop hasher primaryHash verifiedBlock trustedBlock rest
            (forks ++ [Fork.forked verifiedBlock witnessBlock])
        | .error e =>
          if e.kind.hasExpired then
            detect_forks_loop hasher primaryHash verifiedBlock trustedBlock rest
              (forks ++ [Fork.forked verifiedBlock witnessBlock])
          else if e.kind.isTimeout then
            detect_forks_loop hasher primaryHash verifiedBlock trustedBlock rest
              (forks ++ [Fork.timeout witnessBlock.provider e.kind])
          else
            detect_forks_loop hasher primaryHash verifiedBlock trustedBlock rest
              (forks ++ [Fork.faulty witnessBlock e.kind])

/-- `ProdForkDetector::detect_forks`: hash the verified block's header once,
run the per-witness loop, and wrap the collected forks as `Detected` when
non-empty and `NotDetected` otherwise. -/
def detect_forks (hasher : Header → Hash) (verifiedBlock trustedBlock : LightBlock)
    (witnesses : List Witness) : Except Error ForkDetection :=
  let primaryHash := hasher verifiedBlock.signedHeader.header
  match detect_forks_loop hasher primaryHash verifiedBlock trustedBlock witnesses [] with
  | .error e => .error e
  | .ok forks =>
    if forks.isEmpty then .ok ForkDetection.notDetected
    else .ok (ForkDetection.detected forks)

/-- The store handed to `verify_to_target` for a mismatching witness whose
block `b` was fetched into a fresh store: `get_or_fetch_block` inserted `b`
with status `Unverified`, then the detector inserted the trusted block with
status `Verified` and `b` again with status `Unverified`. -/
def preVerifyState (trustedBlock witnessBlock : LightBlock) : State :=
  State.new
    (((MemoryStore.new.insert witnessBlock .unverified).insert trustedBlock .verified).insert
      witnessBlock .unverified)

/-- Derived per-witness view of the loop body: the outcome the detector
computes for one witness, with `Except.error` for a fetch failure, `ok none`
for a matching hash, and `ok (some fork)` for a classified mismatch.  Each
invocation builds its own fresh store, so this is a function of the single
witness (plus the shared read-only inputs) alone. -/
def checkWitness (hasher : Header → Hash) (primaryHash : Hash)
    (verifiedBlock trustedBlock : LightBlock) (witness : Witness) :
    Except Error (Option Fork) :=
  let state := State.new MemoryStore.new
  match witness.getOrFetchBlock verifiedBlock.height state with
  | .error e => .error e
  | .ok ((witnessBlock, _), state1) =>
    if primaryHash = hasher witnessBlock.signedHeader.header then .ok none
    else
      let state2 := State.new
        ((state1.lightStore.insert trustedBlock .verified).insert witnessBlock .unverified)
      match witness.verifyToTarget verifiedBlock.height state2 with
      | .ok _ => .ok (some (Fork.forked verifiedBlock witnessBlock))
      | .error e =>
        if e.kind.hasExpired then .ok (some (Fork.forked verifiedBlock witnessBlock))
        else if e.kind.isTimeout then
          .ok (some (Fork.timeout witnessBlock.provider e.kind))
        else .ok (some (Fork.faulty witnessBlock e.kind))

/-- Sequence `checkWitness` over the witness list, stopping at the first
fetch failure (as `?` does in the source loop). -/
def checkAll (hasher : Header → Hash) (primaryHash : Hash)
    (verifiedBlock trustedBlock : LightBlock) :
    List Witness → Except Error (List (Option Fork))
  | [] => .ok []
  | witness :: rest =>
    match checkWitness hasher primaryHash verifiedBlock trustedBlock witness with
    | .error e => .error e
    | .ok o =>
      match checkAll hasher primaryHash verifiedBlock trustedBlock rest with
      | .error e => .error e
      | .ok os => .ok (o :: os)

/-- Total per-witness classification under the assumption that the fetch
succeeds (the `none` returned on a fetch error is never consulted): `none`
when the witness block's hash matches the primary hash, otherwise the fork
entry dictated by the classifier's decision table. -/
def witnessOutcome (hasher : Header → Hash) (primaryHash : Hash)
    (verifiedBlock trustedBlock : LightBlock) (witness : Witness) : Option Fork :=
  match witness.fetchBlock verifiedBlock.height with
  | .error _ => none
  | .ok b =>
    if primaryHash = hasher b.signedHeader.header then none
    else
      some (match witness.verifyToTarget verifiedBlock.height (preVerifyState trustedBlock b) with
        | .ok _ => Fork.forked verifiedBlock b
        | .error e =>
          if e.kind.hasExpired then Fork.forked verifiedBlock b
          else if e.kind.isTimeout then Fork.timeout b.provider e.kind
          else Fork.faulty b e.kind)

/-!
## The `Time → SystemTime` conversion (`src/types/mod.rs`)

`Time` carries `seconds : i64` and `nanos : i32` (protobuf `sfixed64` /
`sfixed32`); the `From<Time> for SystemTime` impl computes
`UNIX_EPOCH + Duration::new(seconds as u64, nanos as u32)` when
`seconds >= 0` and `UNIX_EPOCH - Duration::new(seconds as u64, nanos as u32)`
otherwise.  An instant is modelled as the signed number of nanoseconds from
the Unix epoch (the platform-specific `SystemTime` range is abstracted away;
the claims are about the integer casts, not about platform range limits).
-/

/-- Rust `as u64` on an `i64` value: two's-complement wrap into `[0, 2^64)`. -/
def i64ToU64 (x : Int) : Nat := (x % (2 : Int) ^ 64).toNat

/-- Rust `as u32` on an `i32` value: two's-complement wrap into `[0, 2^32)`. -/
def i32ToU32 (x : Int) : Nat := (x % (2 : Int) ^ 32).toNat

/-- A Rust `std::time::Duration`: whole seconds below `2^64` plus
sub-second nanoseconds below `10^9`. -/
structure Duration where
  secs : Nat
  nanos : Nat
deriving DecidableEq

/-- Rust `Duration::new(secs, nanos)`: nanoseconds at or above one second
carry into the seconds component; overflow of the `u64` seconds component
panics, modelled as `none`. -/
def durationNew (secs nanos : Nat) : Option Duration :=
  if secs + nanos / 1000000000 < 2 ^ 64 then
    some ⟨secs + nanos / 1000000000, nanos % 1000000000⟩
  else none

/-- A duration as a (non-negative) number of nanoseconds. -/
def Duration.toNanos (d : Duration) : Int :=
  (d.secs : Int) * 1000000000 + (d.nanos : Int)

/-- The `Time` message from `src/types/mod.rs`: `seconds : i64`,
`nanos : i32`, both counted from the Unix epoch.  The fields are `Int`s;
the i64/i32 range bounds appear as hypotheses where they matter. -/
structure Time where
  seconds : Int
  nanos : Int
deriving DecidableEq

/-- `impl From<Time> for SystemTime`, from `src/types/mod.rs`: the branch on
the sign of `seconds` adds the duration to the epoch when non-negative and
subtracts it otherwise; in both branches the duration is
`Duration::new(time.seconds as u64, time.nanos as u32)`.  Returns the
instant in nanoseconds from the epoch, or `none` when `Duration::new`
panics. -/
def systemTimeFromTime (time : Time) : Option Int :=
  if 0 ≤ time.seconds then
    (durationNew (i64ToU64 time.seconds) (i32ToU32 time.nanos)).map (fun d => d.toNanos)
  else
    (durationNew (i64ToU64 time.seconds) (i32ToU32 time.nanos)).map (fun d => -d.toNanos)

/-!
## Concrete toy instances

Used by counterexamples and witness theorems.  The hasher is an injected
capability in the source (`Box<dyn Hasher>`); the toy hasher returns the
header's abstracted `tag`, as the spec's swappable-hasher policy allows for
tests.
-/

/-- A toy injected hasher: the digest is the header's abstract tag. -/
def toyHasher : Header → Hash := fun hd => hd.tag

/-- Build a light block at a height with a header tag and a provider. -/
def blk (hgt tag pid : Nat) : LightBlock := ⟨⟨⟨hgt, tag⟩⟩, pid⟩

/-- A concrete trusted block at height 1. -/
def trustedB : LightBlock := blk 1 10 0

/-- A concrete verified (primary) block at height 3, header tag 11. -/
def verifiedB : LightBlock := blk 3 11 0

/-- A witness that agrees with the primary. -/
def wMatch : Witness :=
  ⟨fun _ => .ok (blk 3 11 7), fun _ _ => .ok (blk 3 11 7)⟩

/-- A witness whose fetch fails with a timeout. -/
def wFetchTimeout : Witness :=
  ⟨fun _ => .error ⟨.timeout⟩, fun _ _ => .error ⟨.timeout⟩⟩

/-- A witness that serves a divergent block and then times out during
verification. -/
def wVerifyTimeout : Witness :=
  ⟨fun _ => .ok (blk 3 22 7), fun _ _ => .error ⟨.timeout⟩⟩

/-- A witness that serves a divergent block that verifies. -/
def wForked : Witness :=
  ⟨fun _ => .ok (blk 3 22 7), fun _ _ => .ok (blk 3 22 7)⟩

/-!
## Helper lemmas
-/

/-- The detection loop is the per-witness check sequenced over the list:
the accumulated fork list is extended by exactly the `some` outcomes, in
order, and a fetch failure aborts with that error. -/
theorem detect_forks_loop_eq_checkAll (hasher : Header → Hash) (primaryHash : Hash)
    (v t : LightBlock) (ws : List Witness) :
    ∀ acc, detect_forks_loop hasher primaryHash v t ws acc =
      match checkAll hasher primaryHash v t ws with
      | .error e => .error e
      | .ok os => .ok (acc ++ os.filterMap id) := by
  induction ws with
  | nil => intro acc; simp [detect_forks_loop, checkAll]
  | cons w rest ih =>
    intro acc
    simp only [detect_forks_loop, checkAll, checkWitness]
    cases hget : w.getOrFetchBlock v.height (State.new MemoryStore.new) with
    | error e => simp
    | ok p =>
      obtain ⟨⟨wb, st⟩, s1⟩ := p
      simp only
      by_cases hh : primaryHash = hasher wb.signedHeader.header
      · rw [if_pos hh, if_pos hh, ih acc]
        cases checkAll hasher primaryHash v t rest <;> simp
      · rw [if_neg hh, if_neg hh]
        cases hver : w.verifyToTarget v.height
            (State.new ((s1.lightStore.insert t .verified).insert wb .unverified)) with
        | ok b =>
          rw [ih]
          cases checkAll hasher primaryHash v t rest <;> simp
        | error e =>
          by_cases hexp : e.kind.hasExpired <;> by_cases htmo : e.kind.isTimeout <;>
            simp only [ih, hexp, htmo, Bool.false_eq_true, if_true, if_false] <;>
            cases checkAll hasher primaryHash v t rest <;> simp

/-- `detect_forks` assembled from the per-witness checks. -/
theorem detect_forks_eq_checkAll (hasher : Header → Hash) (v t : LightBlock)
    (ws : List Witness) :
    detect_forks hasher v t ws =
      match checkAll hasher (hasher v.signedHeader.header) v t ws with
      | .error e => .error e
      | .ok os =>
        if (os.filterMap id).isEmpty then .ok ForkDetection.notDetected
        else .ok (ForkDetection.detected (os.filterMap id)) := by
  rw [detect_forks, detect_forks_loop_eq_checkAll]
  cases checkAll hasher (hasher v.signedHeader.header) v t ws <;> simp

/-- When the fetch from a witness succeeds, the per-witness check cannot
fail and produces the total classification `witnessOutcome`. -/
theorem checkWitness_fetch_ok (hasher : Header → Hash) (ph : Hash)
    (v t : LightBlock) (w : Witness) (b : LightBlock)
    (hfetch : w.fetchBlock v.height = .ok b) :
    checkWitness hasher ph v t w = .ok (witnessOutcome hasher ph v t w) := by
  simp only [checkWitness, witnessOutcome, Witness.getOrFetchBlock, MemoryStore.getAt,
    MemoryStore.new, List.find?_nil, Option.map_none, Option.map_none', hfetch,
    preVerifyState, State.new]
  by_cases hh : ph = hasher b.signedHeader.header
  · simp [hh]
  · rw [if_neg hh, if_neg hh]
    split
    · rfl
    · rename_i e heq
      by_cases hexp : e.kind.hasExpired <;> by_cases htmo : e.kind.isTimeout <;>
        simp [hexp, htmo]

/-- The per-witness check fails exactly when the fetch from that witness
fails, and with the same error. -/
theorem checkWitness_error_iff (hasher : Header → Hash) (ph : Hash)
    (v t : LightBlock) (w : Witness) (e : Error) :
    checkWitness hasher ph v t w = .error e ↔ w.fetchBlock v.height = .error e := by
  simp only [checkWitness, Witness.getOrFetchBlock, MemoryStore.getAt,
    MemoryStore.new, State.new, List.find?_nil, Option.map_none, Option.map_none']
  cases hf : w.fetchBlock v.height with
  | error e2 => simp
  | ok b =>
    simp only
    by_cases hh : ph = hasher b.signedHeader.header
    · simp [hh]
    · rw [if_neg hh]
      split
      · simp
      · rename_i e2 heq
        by_cases hexp : e2.kind.hasExpired <;> by_cases htmo : e2.kind.isTimeout <;>
          simp [hexp, htmo]

/-- When every fetch succeeds, sequencing the per-witness checks succeeds
and yields exactly the list of per-witness classifications, in order. -/
theorem checkAll_fetch_ok (hasher : Header → Hash) (ph : Hash)
    (v t : LightBlock) (ws : List Witness)
    (hall : ∀ w ∈ ws, ∃ b, w.fetchBlock v.height = .ok b) :
    checkAll hasher ph v t ws = .ok (ws.map (witnessOutcome hasher ph v t)) := by
  induction ws with
  | nil => simp [checkAll]
  | cons w rest ih =>
    obtain ⟨b, hb⟩ := hall w (by simp)
    rw [checkAll, checkWitness_fetch_ok hasher ph v t w b hb,
      ih (fun w2 hw2 => hall w2 (by simp [hw2]))]
    rfl

/-- Given a successful fetch of block `b`, the per-witness classification is
empty exactly when the fetched block's hash matches the primary hash. -/
theorem witnessOutcome_none_iff (hasher : Header → Hash) (ph : Hash)
    (v t : LightBlock) (w : Witness) (b : LightBlock)
    (hfetch : w.fetchBlock v.height = .ok b) :
    witnessOutcome hasher ph v t w = none ↔ ph = hasher b.signedHeader.header := by
  simp only [witnessOutcome, hfetch]
  by_cases hh : ph = hasher b.signedHeader.header <;> simp [hh]

/-- Sequencing the per-witness checks fails with `e` exactly when some
witness's fetch fails with `e` while every earlier witness's fetch
succeeds. -/
theorem checkAll_error_iff (hasher : Header → Hash) (ph : Hash)
    (v t : LightBlock) (ws : List Witness) :
    ∀ e, checkAll hasher ph v t ws = .error e ↔
      ∃ pre w post, ws = pre ++ w :: post ∧
        (∀ w2 ∈ pre, ∃ b, w2.fetchBlock v.height = .ok b) ∧
        w.fetchBlock v.height = .error e := by
  induction ws with
  | nil =>
    intro e
    simp only [checkAll]
    constructor
    · intro habs; exact absurd habs (by simp)
    · rintro ⟨pre, w, post, habs, -, -⟩; exact absurd habs (by simp)
  | cons w rest ih =>
    intro e
    rw [checkAll]
    cases hcw : checkWitness hasher ph v t w with
    | error e2 =>
      have hf : w.fetchBlock v.height = .error e2 :=
        (checkWitness_error_iff hasher ph v t w e2).mp hcw
      simp only
      constructor
      · intro heq
        refine ⟨[], w, rest, by simp, by simp, ?_⟩
        cases heq; exact hf
      · rintro ⟨pre, w3, post, hsplit, hpre, hw3⟩
        cases pre with
        | nil =>
          simp only [List.nil_append, List.cons.injEq] at hsplit
          obtain ⟨rfl, rfl⟩ := hsplit
          rw [hf] at hw3
          cases hw3; rfl
        | cons p ps =>
          simp only [List.cons_append, List.cons.injEq] at hsplit
          obtain ⟨rfl, rfl⟩ := hsplit
          obtain ⟨b, hb⟩ := hpre w (by simp)
          rw [hf] at hb
          cases hb
    | ok o =>
      have hwok : ∃ b, w.fetchBlock v.height = .ok b := by
        cases hf : w.fetchBlock v.height with
        | ok b => exact ⟨b, rfl⟩
        | error e2 =>
          rw [(checkWitness_error_iff hasher ph v t w e2).mpr hf] at hcw
          cases hcw
      simp only
      cases hrest : checkAll hasher ph v t rest with
      | error e2 =>
        constructor
        · intro heq
          cases heq
          obtain ⟨pre, w3, post, hsplit, hpre, hw3⟩ := (ih _).mp hrest
          exact ⟨w :: pre, w3, post, by simp [hsplit], by
            intro w2 hw2
            rcases List.mem_cons.mp hw2 with h2 | h2
            · cases h2; exact hwok
            · exact hpre w2 h2, hw3⟩
        · rintro ⟨pre2, w4, post2, hsplit2, hpre2, hw4⟩
          cases pre2 with
          | nil =>
            simp only [List.nil_append, List.cons.injEq] at hsplit2
            obtain ⟨rfl, rfl⟩ := hsplit2
            obtain ⟨b, hb⟩ := hwok
            rw [hw4] at hb
            cases hb
          | cons p ps =>
            simp only [List.cons_append, List.cons.injEq] at hsplit2
            obtain ⟨rfl, rfl⟩ := hsplit2
            have hrest2 : checkAll hasher ph v t (ps ++ w4 :: post2) = .error e :=
              (ih e).mpr ⟨ps, w4, post2, rfl, fun w2 hw2 => hpre2 w2 (by simp [hw2]), hw4⟩
            rw [hrest] at hrest2
            cases hrest2; rfl
      | ok os =>
        constructor
        · intro habs; exact absurd habs (by simp)
        · rintro ⟨pre, w3, post, hsplit, hpre, hw3⟩
          cases pre with
          | nil =>
            simp only [List.nil_append, List.cons.injEq] at hsplit
            obtain ⟨rfl, rfl⟩ := hsplit
            obtain ⟨b, hb⟩ := hwok
            rw [hw3] at hb
            cases hb
          | cons p ps =>
            simp only [List.cons_append, List.cons.injEq] at hsplit
            obtain ⟨rfl, rfl⟩ := hsplit
            have hcontra : checkAll hasher ph v t (ps ++ w3 :: post) = .error e :=
              (ih e).mpr ⟨ps, w3, post, rfl, fun w2 hw2 => hpre w2 (by simp [hw2]), hw3⟩
            rw [hrest] at hcontra
            cases hcontra

/-!
## Claim theorems
-/

/-- Claim C5: a witness whose fetched block hashes equal to the primary
hash contributes no entry, and `verify_to_target` is never consulted for
it: the conclusion holds for an arbitrary witness list, in particular for
arbitrary `verifyToTarget` behaviour, so no `Faulty` record can arise from
a matching witness; when every witness's block hashes equal to the
primary's, the result is `NotDetected`. -/
theorem c5_hash_agreement (hasher : Header → Hash) (v t : LightBlock)
    (ws : List Witness)
    (hall : ∀ w ∈ ws, ∃ b, w.fetchBlock v.height = .ok b ∧
      hasher v.signedHeader.header = hasher b.signedHeader.header) :
    detect_forks hasher v t ws = .ok ForkDetection.notDetected := by
  rw [detect_forks_eq_checkAll,
    checkAll_fetch_ok hasher _ v t ws (fun w hw => (hall w hw).imp (fun b hb => hb.1))]
  have hnil :
      (ws.map (witnessOutcome hasher (hasher v.signedHeader.header) v t)).filterMap id
        = [] := by
    rw [List.filterMap_map]
    rw [List.filterMap_eq_nil_iff]
    intro w hw
    obtain ⟨b, hb, hhash⟩ := hall w hw
    exact (witnessOutcome_none_iff hasher _ v t w b hb).mpr hhash
  simp [hnil]

/-- Claim C5, witnessed: two agreeing witnesses yield `NotDetected`. -/
theorem c5_witness :
    detect_forks toyHasher verifiedB trustedB [wMatch, wMatch] =
      .ok ForkDetection.notDetected :=
  c5_hash_agreement toyHasher verifiedB trustedB [wMatch, wMatch] (by
    intro w hw
    rcases List.mem_cons.mp hw with rfl | hw2
    · exact ⟨blk 3 11 7, rfl, rfl⟩
    · rcases List.mem_singleton.mp hw2 with rfl
      exact ⟨blk 3 11 7, rfl, rfl⟩)

/-- Claim C2: for a witness whose block hash differs from the primary hash,
the entry recorded follows the decision table with its priority: an `Ok`
verification yields `Forked`, otherwise the expired check is applied first
(`Forked`), then the timeout check (`Timeout(provider, kind)`), and any
remaining error yields `Faulty(block, kind)`. -/
theorem c2_classifier_table (hasher : Header → Hash) (v t : LightBlock)
    (w : Witness) (b : LightBlock)
    (hfetch : w.fetchBlock v.height = .ok b)
    (hmismatch : hasher v.signedHeader.header ≠ hasher b.signedHeader.header) :
    detect_forks hasher v t [w] = .ok (ForkDetection.detected
      [match w.verifyToTarget v.height (preVerifyState t b) with
       | .ok _ => Fork.forked v b
       | .error e =>
         if e.kind.hasExpired then Fork.forked v b
         else if e.kind.isTimeout then Fork.timeout b.provider e.kind
         else Fork.faulty b e.kind]) := by
  rw [detect_forks_eq_checkAll,
    checkAll_fetch_ok hasher _ v t [w] (by
      intro w2 hw2
      rcases List.mem_singleton.mp hw2 with rfl
      exact ⟨b, hfetch⟩)]
  simp [witnessOutcome, hfetch, hmismatch]

/-- Claim C2, witnessed at a forked witness whose verification succeeds. -/
theorem c2_witness :
    detect_forks toyHasher verifiedB trustedB [wForked] = .ok (ForkDetection.detected
      [match wForked.verifyToTarget verifiedB.height (preVerifyState trustedB (blk 3 22 7)) with
       | .ok _ => Fork.forked verifiedB (blk 3 22 7)
       | .error e =>
         if e.kind.hasExpired then Fork.forked verifiedB (blk 3 22 7)
         else if e.kind.isTimeout then Fork.timeout (blk 3 22 7).provider e.kind
         else Fork.faulty (blk 3 22 7) e.kind]) :=
  c2_classifier_table toyHasher verifiedB trustedB wForked (blk 3 22 7) rfl (by decide)

/-- Claim C8: for a witness whose block hash differs from the primary
hash, the store handed to `verify_to_target` contains the trusted block
with status `Verified` and the witness's block with status `Unverified`,
and `verify_to_target` is invoked with target height
`verified_block.height()` on exactly that store (the classification is a
function of its result on `preVerifyState t b` at target `v.height`). -/
theorem c8_store_seeding (hasher : Header → Hash) (v t : LightBlock)
    (w : Witness) (b : LightBlock)
    (hfetch : w.fetchBlock v.height = .ok b)
    (hmismatch : hasher v.signedHeader.header ≠ hasher b.signedHeader.header)
    (hheight : b.height ≠ t.height) :
    (preVerifyState t b).lightStore.getAt t.height = some (t, Status.verified) ∧
    (preVerifyState t b).lightStore.getAt b.height = some (b, Status.unverified) ∧
    detect_forks hasher v t [w] = .ok (ForkDetection.detected
      [match w.verifyToTarget v.height (preVerifyState t b) with
       | .ok _ => Fork.forked v b
       | .error e =>
         if e.kind.hasExpired then Fork.forked v b
         else if e.kind.isTimeout then Fork.timeout b.provider e.kind
         else Fork.faulty b e.kind]) := by
  refine ⟨?_, ?_, ?_⟩
  · simp [preVerifyState, State.new, MemoryStore.new, MemoryStore.insert,
      MemoryStore.getAt, hheight, Ne.symm hheight]
  · simp [preVerifyState, State.new, MemoryStore.new, MemoryStore.insert,
      MemoryStore.getAt, hheight, Ne.symm hheight]
  · rw [detect_forks_eq_checkAll,
      checkAll_fetch_ok hasher _ v t [w] (by
        intro w2 hw2
        rcases List.mem_singleton.mp hw2 with rfl
        exact ⟨b, hfetch⟩)]
    simp [witnessOutcome, hfetch, hmismatch]

/-- Claim C8, witnessed at a forked witness. -/
theorem c8_witness :
    (preVerifyState trustedB (blk 3 22 7)).lightStore.getAt trustedB.height =
      some (trustedB, Status.verified) ∧
    (preVerifyState trustedB (blk 3 22 7)).lightStore.getAt (blk 3 22 7).height =
      some (blk 3 22 7, Status.unverified) ∧
    detect_forks toyHasher verifiedB trustedB [wForked] = .ok (ForkDetection.detected
      [match wForked.verifyToTarget verifiedB.height (preVerifyState trustedB (blk 3 22 7)) with
       | .ok _ => Fork.forked verifiedB (blk 3 22 7)
       | .error e =>
         if e.kind.hasExpired then Fork.forked verifiedB (blk 3 22 7)
         else if e.kind.isTimeout then Fork.timeout (blk 3 22 7).provider e.kind
         else Fork.faulty (blk 3 22 7) e.kind]) :=
  c8_store_seeding toyHasher verifiedB trustedB wForked (blk 3 22 7) rfl
    (by decide) (by decide)

/-- Claim C7: each witness check runs on its own freshly created ephemeral
store, and the classification of a witness is a function of that witness
alone.  First conjunct: `detect_forks` is assembled from the independent
per-witness checks `checkWitness` (each of which constructs its own store
from `MemoryStore.new`).  Second conjunct: whenever two witness lists agree
at position `j`, the per-witness classification at position `j` is the
same, whatever the other witnesses fetch, store, or fail with. -/
theorem c7_witness_isolation (hasher : Header → Hash) (v t : LightBlock)
    (ws : List Witness) :
    (detect_forks hasher v t ws =
      match checkAll hasher (hasher v.signedHeader.header) v t ws with
      | .error e => .error e
      | .ok os =>
        if (os.filterMap id).isEmpty then .ok ForkDetection.notDetected
        else .ok (ForkDetection.detected (os.filterMap id))) ∧
    (∀ ws2 : List Witness, ∀ j : Nat, ws[j]? = ws2[j]? →
      (ws.map (checkWitness hasher (hasher v.signedHeader.header) v t))[j]? =
        (ws2.map (checkWitness hasher (hasher v.signedHeader.header) v t))[j]?) := by
  constructor
  · exact detect_forks_eq_checkAll hasher v t ws
  · intro ws2 j hj
    rw [List.getElem?_map, List.getElem?_map, hj]

/-- Claim C7, witnessed: the head witness's classification is unchanged
when a second witness is appended. -/
theorem c7_witness_example :
    ([wForked].map (checkWitness toyHasher (toyHasher verifiedB.signedHeader.header)
      verifiedB trustedB))[0]? =
    ([wForked, wFetchTimeout].map (checkWitness toyHasher
      (toyHasher verifiedB.signedHeader.header) verifiedB trustedB))[0]? :=
  (c7_witness_isolation toyHasher verifiedB trustedB [wForked]).2
    [wForked, wFetchTimeout] 0 rfl

/-- Claim C6: for a list of `n` witnesses whose fetches all succeed, the
output fork list is exactly `ws.filterMap witnessOutcome` — each witness
contributes at most one entry, entries appear in input order — its length
is at most `n`, and a witness contributes an entry exactly when its fetched
block's hash differs from the primary hash. -/
theorem c6_exhaustiveness (hasher : Header → Hash) (v t : LightBlock)
    (ws : List Witness)
    (hall : ∀ w ∈ ws, ∃ b, w.fetchBlock v.height = .ok b) :
    (detect_forks hasher v t ws =
      if (ws.filterMap (witnessOutcome hasher (hasher v.signedHeader.header) v t)).isEmpty
      then .ok ForkDetection.notDetected
      else .ok (ForkDetection.detected
        (ws.filterMap (witnessOutcome hasher (hasher v.signedHeader.header) v t)))) ∧
    (ws.filterMap (witnessOutcome hasher (hasher v.signedHeader.header) v t)).length ≤
      ws.length ∧
    (∀ w ∈ ws, ∀ b, w.fetchBlock v.height = .ok b →
      ((witnessOutcome hasher (hasher v.signedHeader.header) v t w).isSome ↔
        hasher v.signedHeader.header ≠ hasher b.signedHeader.header)) := by
  refine ⟨?_, List.length_filterMap_le _ _, ?_⟩
  · rw [detect_forks_eq_checkAll, checkAll_fetch_ok hasher _ v t ws hall]
    simp only [List.filterMap_map, Function.id_comp]
  · intro w hw b hb
    constructor
    · intro hsome heq
      rw [(witnessOutcome_none_iff hasher _ v t w b hb).mpr heq] at hsome
      simp at hsome
    · intro hne
      cases hsome : (witnessOutcome hasher (hasher v.signedHeader.header) v t w) with
      | none => exact absurd ((witnessOutcome_none_iff hasher _ v t w b hb).mp hsome) hne
      | some f => rfl

/-- Claim C6, witnessed on a two-witness fleet (one agreeing, one forked). -/
theorem c6_witness :
    (detect_forks toyHasher verifiedB trustedB [wMatch, wForked] =
      if ([wMatch, wForked].filterMap (witnessOutcome toyHasher
          (toyHasher verifiedB.signedHeader.header) verifiedB trustedB)).isEmpty
      then .ok ForkDetection.notDetected
      else .ok (ForkDetection.detected
        ([wMatch, wForked].filterMap (witnessOutcome toyHasher
          (toyHasher verifiedB.signedHeader.header) verifiedB trustedB)))) ∧
    ([wMatch, wForked].filterMap (witnessOutcome toyHasher
      (toyHasher verifiedB.signedHeader.header) verifiedB trustedB)).length ≤
      ([wMatch, wForked] : List Witness).length ∧
    (∀ w ∈ ([wMatch, wForked] : List Witness), ∀ b,
      w.fetchBlock verifiedB.height = .ok b →
      ((witnessOutcome toyHasher (toyHasher verifiedB.signedHeader.header)
          verifiedB trustedB w).isSome ↔
        toyHasher verifiedB.signedHeader.header ≠ toyHasher b.signedHeader.header)) :=
  c6_exhaustiveness toyHasher verifiedB trustedB [wMatch, wForked] (by
    intro w hw
    rcases List.mem_cons.mp hw with rfl | hw2
    · exact ⟨blk 3 11 7, rfl⟩
    · rcases List.mem_singleton.mp hw2 with rfl
      exact ⟨blk 3 22 7, rfl⟩)

/-- Claim C9: whenever the detection loop collects the fork list `forks`,
`detect_forks` returns `Detected forks` exactly when `forks` is non-empty
and `NotDetected` otherwise; consequently a returned `Detected` value never
carries an empty list. -/
theorem c9_detected_nonempty (hasher : Header → Hash) (v t : LightBlock)
    (ws : List Witness) :
    (∀ forks,
      detect_forks_loop hasher (hasher v.signedHeader.header) v t ws [] = .ok forks →
      detect_forks hasher v t ws =
        if forks.isEmpty then .ok ForkDetection.notDetected
        else .ok (ForkDetection.detected forks)) ∧
    (∀ l, detect_forks hasher v t ws = .ok (ForkDetection.detected l) → l ≠ []) := by
  constructor
  · intro forks hloop
    simp only [detect_forks, hloop]
  · intro l hdet
    simp only [detect_forks] at hdet
    cases hloop : detect_forks_loop hasher (hasher v.signedHeader.header) v t ws [] with
    | error e => simp only [hloop] at hdet; cases hdet
    | ok forks =>
      simp only [hloop] at hdet
      by_cases hemp : forks.isEmpty
      · rw [if_pos hemp] at hdet; cases hdet
      · rw [if_neg hemp] at hdet
        cases hdet
        simpa [List.isEmpty_iff] using hemp

/-- Claim C9, witnessed at a singleton forked fleet. -/
theorem c9_witness :
    (detect_forks toyHasher verifiedB trustedB [wForked] =
      if ([Fork.forked verifiedB (blk 3 22 7)] : List Fork).isEmpty
      then .ok ForkDetection.notDetected
      else .ok (ForkDetection.detected [Fork.forked verifiedB (blk 3 22 7)])) ∧
    ([Fork.forked verifiedB (blk 3 22 7)] : List Fork) ≠ [] :=
  ⟨(c9_detected_nonempty toyHasher verifiedB trustedB [wForked]).1
      [Fork.forked verifiedB (blk 3 22 7)] rfl,
    (c9_detected_nonempty toyHasher verifiedB trustedB [wForked]).2
      [Fork.forked verifiedB (blk 3 22 7)] rfl⟩

/-- Claim C1, counterexample: a witness whose `get_or_fetch_block` fails
with a `Timeout`-kind error makes `detect_forks` return `Err(Timeout)` —
the `?` operator on the fetch propagates the error — rather than `Ok` with
a `Timeout` entry for that witness as the claim states. -/
theorem c1_counterexample :
    detect_forks toyHasher verifiedB trustedB [wFetchTimeout] =
      .error ⟨ErrorKind.timeout⟩ ∧
    detect_forks toyHasher verifiedB trustedB [wFetchTimeout] ≠
      .ok (ForkDetection.detected [Fork.timeout 7 ErrorKind.timeout]) :=
  ⟨rfl, fun h => Except.noConfusion h⟩

/-- Claim C1 as amended: an operational failure during `verify_to_target`
never causes `detect_forks` to return `Err` — when every witness's fetch
succeeds the call returns `Ok` — and a timeout during `verify_to_target`
for a mismatching witness is captured as a `Timeout` entry; a failure of
`get_or_fetch_block`, however, is propagated as `Err` (first conjunct of
the counterexample) rather than captured as data. -/
theorem c1_amended :
    (∀ (hasher : Header → Hash) (v t : LightBlock) (ws : List Witness),
      (∀ w ∈ ws, ∃ b, w.fetchBlock v.height = .ok b) →
      ∃ d, detect_forks hasher v t ws = .ok d) ∧
    (∀ (hasher : Header → Hash) (v t : LightBlock) (w : Witness) (b : LightBlock),
      w.fetchBlock v.height = .ok b →
      hasher v.signedHeader.header ≠ hasher b.signedHeader.header →
      (∀ s, w.verifyToTarget v.height s = .error ⟨ErrorKind.timeout⟩) →
      detect_forks hasher v t [w] =
        .ok (ForkDetection.detected [Fork.timeout b.provider ErrorKind.timeout])) := by
  constructor
  · intro hasher v t ws hall
    rw [detect_forks_eq_checkAll, checkAll_fetch_ok hasher _ v t ws hall]
    simp only
    split
    · exact ⟨ForkDetection.notDetected, rfl⟩
    · exact ⟨_, rfl⟩
  · intro hasher v t w b hfetch hmismatch hver
    rw [detect_forks_eq_checkAll,
      checkAll_fetch_ok hasher _ v t [w] (by
        intro w2 hw2
        rcases List.mem_singleton.mp hw2 with rfl
        exact ⟨b, hfetch⟩)]
    simp [witnessOutcome, hfetch, hmismatch, hver (preVerifyState t b),
      ErrorKind.hasExpired, ErrorKind.isTimeout]

/-- Claim C1 amended, witnessed: an all-fetches-succeed fleet returns `Ok`,
and a verify-timeout witness yields a `Timeout` entry. -/
theorem c1_witness :
    (∃ d, detect_forks toyHasher verifiedB trustedB [wMatch] = .ok d) ∧
    detect_forks toyHasher verifiedB trustedB [wVerifyTimeout] =
      .ok (ForkDetection.detected [Fork.timeout 7 ErrorKind.timeout]) :=
  ⟨c1_amended.1 toyHasher verifiedB trustedB [wMatch] (by
      intro w hw
      rcases List.mem_singleton.mp hw with rfl
      exact ⟨blk 3 11 7, rfl⟩),
    c1_amended.2 toyHasher verifiedB trustedB wVerifyTimeout (blk 3 22 7) rfl
      (by decide) (fun s => rfl)⟩

/-- Claim C4, counterexample: `detect_forks` performs no structural check —
with `trusted_block.height() = 5 ≥ 3 = verified_block.height()` and an
agreeing witness it returns `Ok(NotDetected)` instead of the `Err` the
claim requires for a violated height precondition. -/
theorem c4_counterexample :
    (blk 5 10 0).height ≥ verifiedB.height ∧
    detect_forks toyHasher verifiedB (blk 5 10 0) [wMatch] =
      .ok ForkDetection.notDetected :=
  ⟨by decide, rfl⟩

/-- Claim C4 as amended: `detect_forks` contains no structural validation
(a violated height precondition still yields `Ok`, and the witness list is
a mandatory argument that cannot be missing); it returns `Err` exactly when
some witness's `get_or_fetch_block` fails — namely at the first witness in
input order whose fetch fails, with that witness's error. -/
theorem c4_err_characterization (hasher : Header → Hash) (v t : LightBlock)
    (ws : List Witness) (e : Error) :
    detect_forks hasher v t ws = .error e ↔
      ∃ pre w post, ws = pre ++ w :: post ∧
        (∀ w2 ∈ pre, ∃ b, w2.fetchBlock v.height = .ok b) ∧
        w.fetchBlock v.height = .error e := by
  rw [detect_forks_eq_checkAll]
  constructor
  · intro hda
    cases hca : checkAll hasher (hasher v.signedHeader.header) v t ws with
    | error e2 =>
      rw [hca] at hda
      cases hda
      exact (checkAll_error_iff hasher _ v t ws e).mp hca
    | ok os =>
      rw [hca] at hda
      simp only at hda
      split at hda <;> cases hda
  · intro hex
    rw [(checkAll_error_iff hasher _ v t ws e).mpr hex]

/-- Claim C4 amended, witnessed: a fleet whose second witness's fetch times
out (after a successful first witness) makes `detect_forks` return that
error. -/
theorem c4_witness :
    detect_forks toyHasher verifiedB trustedB [wMatch, wFetchTimeout] =
      .error ⟨ErrorKind.timeout⟩ :=
  (c4_err_characterization toyHasher verifiedB trustedB [wMatch, wFetchTimeout]
      ⟨ErrorKind.timeout⟩).mpr
    ⟨[wMatch], wFetchTimeout, [], rfl, by
      intro w2 hw2
      rcases List.mem_singleton.mp hw2 with rfl
      exact ⟨blk 3 11 7, rfl⟩, rfl⟩

/-- Claim C3: the `From<Time>` conversion is required to handle negative
seconds without wraparound, but the code computes
`UNIX_EPOCH - Duration::new(time.seconds as u64, ...)` in the negative
branch: the `as u64` cast wraps `-1` to `2^64 - 1`, so `Time{-1, 0}`
becomes the epoch minus 18446744073709551615 seconds instead of the epoch
minus one second.  The branch on the sign of `seconds` shows the code
intends to support negative seconds; the missing negation is the bug. -/
theorem c3_negative_seconds_wrap :
    systemTimeFromTime ⟨-1, 0⟩ = some (-18446744073709551615000000000) ∧
    systemTimeFromTime ⟨-1, 0⟩ ≠ some (-1000000000) :=
  ⟨rfl, by decide⟩

/-- Claim C10: for `seconds ≥ 0`, the conversion computes
`epoch + Duration::new(seconds as u64, nanos as u32)`; `nanos` is not
range-checked, so a negative value is reinterpreted modulo `2^32`
(contributing strictly less than `2^32` nanoseconds, about 4.29 seconds)
and added — for negative `nanos` the added amount is `nanos + 2^32`, never
a subtraction or a rejection. -/
theorem c10_nanos_unchecked (s n : Int) (hs0 : 0 ≤ s) (hs : s < 2 ^ 63)
    (hn : -(2 ^ 31) ≤ n) (hn2 : n < 2 ^ 31) :
    systemTimeFromTime ⟨s, n⟩ = some (s * 1000000000 + (i32ToU32 n : Int)) ∧
    i32ToU32 n < 2 ^ 32 ∧
    (n < 0 → (i32ToU32 n : Int) = n + 2 ^ 32) := by
  norm_num at hs hn hn2
  have hm0 : 0 ≤ n % 4294967296 := Int.emod_nonneg n (by norm_num)
  have hm1 : n % 4294967296 < 4294967296 := Int.emod_lt_of_pos n (by norm_num)
  have hu32 : i32ToU32 n = (n % 4294967296).toNat := by
    unfold i32ToU32; norm_num
  have hu64 : i64ToU64 s = s.toNat := by
    unfold i64ToU64
    norm_num
    rw [Int.emod_eq_of_lt hs0 (by omega)]
  refine ⟨?_, ?_, ?_⟩
  · unfold systemTimeFromTime
    rw [if_pos hs0]
    unfold durationNew
    rw [hu32, hu64, if_pos (by omega)]
    simp only [Option.map_some', Duration.toNanos]
    congr 1
    omega
  · rw [hu32]; omega
  · intro hneg; rw [hu32]; omega

/-- Claim C10, witnessed at `Time{seconds: 5, nanos: -1}`. -/
theorem c10_witness :
    systemTimeFromTime ⟨5, -1⟩ = some (5 * 1000000000 + (i32ToU32 (-1) : Int)) ∧
    i32ToU32 (-1) < 2 ^ 32 ∧
    ((-1 : Int) < 0 → (i32ToU32 (-1) : Int) = -1 + 2 ^ 32) :=
  c10_nanos_unchecked 5 (-1) (by norm_num) (by norm_num) (by norm_num) (by norm_num)

end TendermintRs
